import Mathlib

/-!
# Verification of the Toast Notification Queue and Lifecycle Manager

Shallow embedding of `src/js/toast-manager.js` (class `ToastManager`).
The DOM-facing parts (CSS injection, element construction, classList
animation hooks) are presentational and carry no queue/lifecycle state;
they are omitted, except for the rendered message text of a toast
element, which is modelled by `renderedMessage`.

Timers (`setTimeout` / `clearTimeout`) are modelled explicitly: the
manager state carries the list of pending timeouts, each with its
numeric handle, absolute fire time, and the callback it would run
(auto-dismiss `() => this.hide(id)`, or the removal callback scheduled
inside `hide`).  Timeout handles are allocated from 1 upward, matching
the browser guarantee that `setTimeout` returns a positive (hence
truthy) integer.  The event loop is modelled by the `TimeStep` relation:
time may advance up to the earliest pending deadline, and the earliest
pending timeout may fire.
-/

namespace ToastModel

/-- JavaScript values that can appear in the option fields the manager
reads (`options.id`, `options.message`, `options.title`,
`options.closable`, `options.type`). -/
inductive JsVal where
  | undef
  | jsNull
  | bool (b : Bool)
  | num (n : Int)
  | str (s : String)
deriving DecidableEq

/-- JavaScript truthiness for the values of `JsVal` (used by
`options.id || this.generateId()` and `options.type || 'info'`). -/
def JsVal.truthy : JsVal → Bool
  | .undef => false
  | .jsNull => false
  | .bool b => b
  | .num n => decide (n ≠ 0)
  | .str s => decide (s ≠ "")

/-- The string a `JsVal` becomes when assigned to `Node.textContent`
(as `escapeHtml` does via `div.textContent = text`): `undefined` is
stringified to `"undefined"`, `null` is treated as the empty string by
the nullable-DOMString setter. -/
def jsTextContent : JsVal → String
  | .undef => "undefined"
  | .jsNull => ""
  | .bool b => if b then "true" else "false"
  | .num n => toString n
  | .str s => s

/-- One character of the `textContent` → `innerHTML` round trip used by
`ToastManager.escapeHtml`. -/
def escapeChar (c : Char) : String :=
  if c = '&' then "&amp;"
  else if c = '<' then "&lt;"
  else if c = '>' then "&gt;"
  else String.singleton c

/-- `ToastManager.escapeHtml`: sets `div.textContent` and reads back
`div.innerHTML`, which entity-escapes `&`, `<`, `>`. -/
def escapeHtml (s : String) : String :=
  String.join (s.toList.map escapeChar)

/-- Digit character used by JavaScript `Number.prototype.toString(36)`:
`0`-`9` then lowercase `a`-`z`. -/
def base36Digit (n : Nat) : Char :=
  if n < 10 then Char.ofNat (48 + n) else Char.ofNat (87 + n)

/-- Fuelled worker for `natToBase36`; the fuel `n + 1` is always enough
since the number loses at least one bit per division by 36. -/
def natToBase36Go (fuel n : Nat) (acc : String) : String :=
  match fuel with
  | 0 => acc
  | fuel + 1 =>
    let acc2 := String.singleton (base36Digit (n % 36)) ++ acc
    if n < 36 then acc2 else natToBase36Go fuel (n / 36) acc2

/-- JavaScript `n.toString(36)` for a non-negative integer `n`
(as used on `Date.now()` in `generateId`). -/
def natToBase36 (n : Nat) : String :=
  natToBase36Go (n + 1) n ""

/-- `ToastManager.generateId`:
`'toast-' + Date.now().toString(36) + Math.random().toString(36).substr(2)`.
The current time is an explicit argument; the random suffix (what
`Math.random().toString(36).substr(2)` produced) is threaded in as the
opaque input `rand`. -/
def generateId (now : Nat) (rand : String) : String :=
  "toast-" ++ natToBase36 now ++ rand

/-- The callback stored in a pending `setTimeout`:
`autoDismiss id` is `() => this.hide(id)` (scheduled by `show` and by
the `mouseleave` resume handler); `removeToast id` is the removal
callback scheduled inside `hide` (remove the element, delete the map
entry, dispatch `toastHide`). -/
inductive TimerAct where
  | autoDismiss (id : JsVal)
  | removeToast (id : JsVal)
deriving DecidableEq

/-- A pending timeout: its `setTimeout` handle, absolute fire time
(scheduling time plus delay), and callback. -/
structure Timer where
  tid : Nat
  fireAt : Nat
  act : TimerAct
deriving DecidableEq

/-- The toast record built at the top of `ToastManager.show`.  The
`element` field (a DOM node) is presentational and omitted; `actions`
holds caller-supplied callbacks and is likewise omitted (no claim
touches it).  `timer` holds the last `setTimeout` handle assigned to
`toast.timer` (`none` models `null`); note `hide` clears the timeout
but never nulls this field. -/
structure Toast where
  id : JsVal
  type : JsVal
  title : JsVal
  message : JsVal
  duration : Int
  closable : Bool
  startTime : Nat
  timer : Option Nat
  paused : Bool
deriving DecidableEq

/-- The manager's `this.options` (constructor defaults). -/
structure ToastOptions where
  position : String := "top-right"
  maxToasts : Nat := 5
  defaultDuration : Int := 4000
  animationDuration : Nat := 300
  gap : Nat := 8
deriving DecidableEq

/-- Full manager state: `toasts` is `this.toasts` (a JS `Map`, i.e. an
insertion-ordered association list with unique keys), `timers` the
pending timeouts, `events` the log of `dispatchEvent` calls (event name
and the toast id carried in the detail), `now` the current
`Date.now()`, and `nextTid` the next `setTimeout` handle (starting at
1, so every allocated handle is truthy). -/
structure MState where
  opts : ToastOptions
  toasts : List Toast
  timers : List Timer
  events : List (String × JsVal)
  now : Nat
  nextTid : Nat
deriving DecidableEq

/-- `Map.prototype.get`: first (and, for a real `Map`, only) entry with
the given key. -/
def mapGet : List Toast → JsVal → Option Toast
  | [], _ => none
  | t :: ts, k => if t.id = k then some t else mapGet ts k

/-- `Map.prototype.set`: replace the entry with this key in place
(keeping its insertion position) or append a new entry. -/
def mapSet : List Toast → Toast → List Toast
  | [], t => [t]
  | u :: ts, t => if u.id = t.id then t :: ts else u :: mapSet ts t

/-- `Map.prototype.delete`: drop the entry with this key, if any. -/
def mapDelete : List Toast → JsVal → List Toast
  | [], _ => []
  | t :: ts, k => if t.id = k then ts else t :: mapDelete ts k

/-- `setTimeout(cb, delayMs)`: allocate a handle, record the pending
timeout.  A negative delay is clamped to zero, as browsers do. -/
def setTimeout (s : MState) (delayMs : Int) (act : TimerAct) : MState × Nat :=
  ({ s with
      timers := s.timers ++ [⟨s.nextTid, s.now + delayMs.toNat, act⟩],
      nextTid := s.nextTid + 1 },
   s.nextTid)

/-- `clearTimeout(tid)`: cancel the pending timeout with this handle
(no-op when it already fired or was cleared). -/
def clearTimeout (s : MState) (tid : Nat) : MState :=
  { s with timers := s.timers.filter (fun tm => tm.tid != tid) }

/-- `ToastManager.dispatchEvent(name, { toast })`: append to the event
log (name and the id of the toast carried in the detail). -/
def dispatchEvent (s : MState) (name : String) (id : JsVal) : MState :=
  { s with events := s.events ++ [(name, id)] }

/-- `ToastManager.hide(id)`: no-op when the id is not tracked;
otherwise clear the toast's stored timeout (if the field is truthy),
and schedule the removal callback after `animationDuration`.  The map
entry is *not* removed here — only when the scheduled callback runs. -/
def hide (s : MState) (id : JsVal) : MState :=
  match mapGet s.toasts id with
  | none => s
  | some toast =>
    let s1 :=
      match toast.timer with
      | some tm => clearTimeout s tm
      | none => s
    (setTimeout s1 (Int.ofNat s.opts.animationDuration) (.removeToast id)).1

/-- The `options` argument of `ToastManager.show`.  `duration` is
`none` when the property is absent (`options.duration !== undefined`
is the test the code performs); callers that do pass it pass a number. -/
structure ShowSpec where
  id : JsVal := .undef
  type : JsVal := .undef
  title : JsVal := .undef
  message : JsVal := .undef
  duration : Option Int := none
  closable : JsVal := .undef
deriving DecidableEq

/-- The toast object literal built at the top of `ToastManager.show`. -/
def buildToast (s : MState) (o : ShowSpec) (rand : String) : Toast :=
  { id := if o.id.truthy then o.id else .str (generateId s.now rand)
    type := if o.type.truthy then o.type else .str "info"
    title := o.title
    message := o.message
    duration := match o.duration with
      | some d => d
      | none => s.opts.defaultDuration
    closable := o.closable != .bool false
    startTime := s.now
    timer := none
    paused := false }

/-- The capacity check in `show`: when the map already holds at least
`maxToasts` entries, `hide` the first entry of the map
(`Array.from(this.toasts.values())[0]`). -/
def evict (s : MState) : MState :=
  if s.opts.maxToasts ≤ s.toasts.length then
    match s.toasts.head? with
    | some oldest => hide s oldest.id
    | none => s
  else s

/-- The auto-dismiss scheduling in `show`: when `toast.duration > 0`,
`toast.timer = setTimeout(() => this.hide(toast.id), toast.duration)`
(the assignment mutates the object already stored in the map). -/
def scheduleAuto (s : MState) (t : Toast) : MState :=
  if 0 < t.duration then
    let p := setTimeout s t.duration (.autoDismiss t.id)
    { p.1 with toasts := mapSet p.1.toasts { t with timer := some p.2 } }
  else s

/-- `ToastManager.show(options)`: build the toast record, evict when at
capacity, insert into the map (`createToastElement` / `appendChild`
are presentational), schedule auto-dismiss when the duration is
positive, dispatch `toastShow`, return the toast's id. -/
def «show» (s : MState) (o : ShowSpec) (rand : String) : MState × JsVal :=
  let t := buildToast s o rand
  let s1 := evict s
  let s2 := { s1 with toasts := mapSet s1.toasts t }
  let s3 := scheduleAuto s2 t
  (dispatchEvent s3 "toastShow" t.id, t.id)

/-- The text content of the `.toast-message` node that
`createToastElement` renders:
`<div class="toast-message">${this.escapeHtml(toast.message)}</div>`. -/
def renderedMessage (t : Toast) : String :=
  escapeHtml (jsTextContent t.message)

/-- The container `mouseenter` handler (pause-all): for every toast
with a truthy `timer` field, clear that timeout and set `paused`. -/
def mouseenter (s : MState) : MState :=
  { s with
    toasts := s.toasts.map (fun t => if t.timer.isSome then { t with paused := true } else t),
    timers := s.timers.filter
      (fun tm => !(s.toasts.any (fun t => decide (t.timer = some tm.tid)))) }

/-- One iteration of the container `mouseleave` handler (resume-all):
for a paused toast with positive duration, compute
`remainingTime = toast.duration - (Date.now() - toast.startTime)`;
when positive, schedule a new auto-dismiss timeout for it and unset
`paused`; otherwise do nothing at all. -/
def leaveOne (t : Toast) (s : MState) : MState :=
  if t.paused && decide (0 < t.duration) then
    let remainingTime : Int := t.duration - ((s.now : Int) - (t.startTime : Int))
    if 0 < remainingTime then
      let p := setTimeout s remainingTime (.autoDismiss t.id)
      { p.1 with toasts := mapSet p.1.toasts { t with timer := some p.2, paused := false } }
    else s
  else s

/-- The container `mouseleave` handler (resume-all): `forEach` over the
map's values. -/
def mouseleave (s : MState) : MState :=
  s.toasts.foldl (fun acc t => leaveOne t acc) s

/-- Run a timeout callback.  `autoDismiss id` is `() => this.hide(id)`.
`removeToast id` is the callback `hide` scheduled: remove the element
(presentational), `this.toasts.delete(id)`, then dispatch `toastHide`
— note the delete and the dispatch are unconditional. -/
def runAct (s : MState) (a : TimerAct) : MState :=
  match a with
  | .autoDismiss id => hide s id
  | .removeToast id =>
      dispatchEvent { s with toasts := mapDelete s.toasts id } "toastHide" id

/-- Fire a pending timeout: advance the clock to its deadline, remove
it from the pending list, run its callback. -/
def fireTimer (s : MState) (tm : Timer) : MState :=
  runAct { s with
            timers := s.timers.filter (fun x => x.tid != tm.tid),
            now := max s.now tm.fireAt } tm.act

/-- The pending timeout with the earliest deadline (first such on a
tie, matching the FIFO order browsers use for equal deadlines). -/
def earliest (s : MState) : Option Timer :=
  s.timers.foldl
    (fun a tm => match a with
      | none => some tm
      | some b => if tm.fireAt < b.fireAt then some tm else some b)
    none

/-- Fire the earliest pending timeout, if any. -/
def fireNext (s : MState) : MState :=
  match earliest s with
  | some tm => fireTimer s tm
  | none => s

/-- Let wall-clock time pass (no manager code runs). -/
def passTime (s : MState) (t : Nat) : MState :=
  { s with now := max s.now t }

/-- One event-loop step with no intervening API calls: either time
advances (never past a pending deadline), or the earliest pending
timeout fires. -/
inductive TimeStep : MState → MState → Prop where
  | advance (s : MState) (t : Nat) :
      s.now ≤ t → (∀ tm ∈ s.timers, t ≤ tm.fireAt) → TimeStep s (passTime s t)
  | fire (s : MState) (tm : Timer) :
      tm ∈ s.timers → (∀ x ∈ s.timers, tm.fireAt ≤ x.fireAt) →
      TimeStep s (fireTimer s tm)

/-- Reflexive-transitive closure of `TimeStep`: everything the manager
can evolve into by mere passage of time. -/
inductive TimeReach : MState → MState → Prop where
  | refl (s : MState) : TimeReach s s
  | step {s1 s2 s3 : MState} : TimeReach s1 s2 → TimeStep s2 s3 → TimeReach s1 s3

/-- `ToastManager.getToasts`: `Array.from(this.toasts.values())`. -/
def getToasts (s : MState) : List Toast :=
  s.toasts

/-- `ToastManager.isActive(id)`: `this.toasts.has(id)`. -/
def isActive (s : MState) (id : JsVal) : Bool :=
  (mapGet s.toasts id).isSome

/-- A freshly constructed manager with default options, at time 0. -/
def initState : MState :=
  { opts := {}, toasts := [], timers := [], events := [], now := 0, nextTid := 1 }

/-- A show spec with a caller-supplied string id and a message, all
other options absent (used by the concrete scenarios below). -/
def mkSpec (i : String) : ShowSpec :=
  { id := .str i, message := .str "m" }

/-- A burst of `show` calls in one synchronous tick. -/
def burst (ids : List String) (s : MState) : MState :=
  ids.foldl (fun acc i => («show» acc (mkSpec i) "r").1) s

/-- A show spec with id, message and an explicit duration. -/
def specDur (i : String) (d : Int) : ShowSpec :=
  { id := .str i, message := .str "m", duration := some d }

/-- A show spec with an id and a duration but no `message` property. -/
def specNoMsg (i : String) (d : Int) : ShowSpec :=
  { id := .str i, duration := some d }

/-- A show spec with only a message — no caller-supplied id. -/
def specNoId : ShowSpec :=
  { message := .str "m" }

/-- Five `show` calls followed by a sixth, all in one tick. -/
def sB6 : MState := burst ["a", "b", "c", "d", "e", "f"] initState

/-- The state after five `show` calls, for the C1/C4 witnesses. -/
def sB5 : MState := burst ["a", "b", "c", "d", "e"] initState

/-- The head of `sB5`'s map: the first toast, with its auto-dismiss
handle 1 recorded. -/
def tHead : Toast :=
  ⟨.str "a", .str "info", .undef, .str "m", 4000, true, 0, some 1, false⟩

/-- Whether a timeout callback is a removal callback (the kind `hide`
schedules). -/
def isRemoveAct : TimerAct → Bool
  | .removeToast _ => true
  | .autoDismiss _ => false

/-- Seven `show` calls in one tick. -/
def sB7 : MState := burst ["a", "b", "c", "d", "e", "f", "g"] initState

/-- Three `show` calls where the third reuses the first one's id. -/
def c9s : MState :=
  («show» («show» («show» initState (specDur "a" 1) "r").1
    (specDur "b" 2) "r").1 (specDur "a" 3) "r").1

/-- A single `show` of toast `a` with duration 1000 on a fresh
manager (auto-dismiss handle 1 pending at t=1000). -/
def oneShown : MState := («show» initState (specDur "a" 1000) "r").1

/-- The toast `oneShown` tracks. -/
def tA : Toast :=
  ⟨.str "a", .str "info", .undef, .str "m", 1000, true, 0, some 1, false⟩

/-- Dismiss the same toast twice in one tick, then let both scheduled
removal callbacks fire. -/
def c2final : MState :=
  fireNext (fireNext (hide (hide («show» initState (specDur "a" 0) "r").1
    (.str "a")) (.str "a")))

/-- The C3 scenario: `show` at t=0 with duration 1000, pause
(`mouseenter`) at t=400, resume (`mouseleave`) at t=900. -/
def c3resumed : MState :=
  mouseleave (passTime (mouseenter (passTime oneShown 400)) 900)

/-- A second `show` reusing the already-tracked id `a`. -/
def c5reused : MState := («show» oneShown (specDur "a" 2000) "r").1

/-- The C7 negative-remaining scenario: pause at t=400, resume at
t=2000 when the duration-1000 toast's remaining time is ≤ 0. -/
def c7stuck : MState :=
  mouseleave (passTime (mouseenter (passTime oneShown 400)) 2000)

/-- A paused manager at t=900 (pause happened at t=400), before the
resume handler runs. -/
def c7paused : MState := passTime (mouseenter (passTime oneShown 400)) 900

/-- The paused toast tracked by `c7paused`: timeout handle 1 already
cleared but still recorded in the field, `paused` set. -/
def tPaused : Toast :=
  ⟨.str "a", .str "info", .undef, .str "m", 1000, true, 0, some 1, true⟩

/-! ## Basic lemmas about the `Map` model -/

theorem mapGet_mapSet_self (l : List Toast) (t : Toast) :
    mapGet (mapSet l t) t.id = some t := by
  induction l with
  | nil => simp [mapSet, mapGet]
  | cons u ts ih =>
    by_cases h : u.id = t.id
    · simp [mapSet, mapGet, h]
    · simp [mapSet, mapGet, h, ih]

theorem mapGet_none_iff (l : List Toast) (k : JsVal) :
    mapGet l k = none ↔ ∀ t ∈ l, t.id ≠ k := by
  induction l with
  | nil => simp [mapGet]
  | cons u ts ih =>
    by_cases h : u.id = k
    · simp [mapGet, h]
    · simp [mapGet, h, ih]

theorem mapSet_of_get_none (l : List Toast) (t : Toast)
    (h : mapGet l t.id = none) : mapSet l t = l ++ [t] := by
  induction l with
  | nil => simp [mapSet]
  | cons u ts ih =>
    rw [mapGet_none_iff] at h
    have hu : u.id ≠ t.id := h u (by simp)
    have hts : mapGet ts t.id = none := by
      rw [mapGet_none_iff]
      exact fun x hx => h x (by simp [hx])
    simp [mapSet, hu, ih hts]

theorem mapSet_append_last (l : List Toast) (u t : Toast)
    (hfresh : mapGet l u.id = none) (hid : t.id = u.id) :
    mapSet (l ++ [u]) t = l ++ [t] := by
  induction l with
  | nil => simp [mapSet, hid]
  | cons v ts ih =>
    rw [mapGet_none_iff] at hfresh
    have hv : v.id ≠ t.id := by rw [hid]; exact hfresh v (by simp)
    have hts : mapGet ts u.id = none := by
      rw [mapGet_none_iff]
      exact fun x hx => hfresh x (by simp [hx])
    simp [mapSet, hv, ih hts]

theorem mapGet_append_left (l r : List Toast) (k : JsVal) (v : Toast)
    (h : mapGet l k = some v) : mapGet (l ++ r) k = some v := by
  induction l with
  | nil => simp [mapGet] at h
  | cons u ts ih =>
    by_cases hu : u.id = k
    · simp [mapGet, hu] at h ⊢; exact h
    · simp [mapGet, hu] at h ⊢; exact ih h

theorem mapDelete_sublist (l : List Toast) (k : JsVal) :
    (mapDelete l k).Sublist l := by
  induction l with
  | nil => simp [mapDelete]
  | cons u ts ih =>
    by_cases hu : u.id = k
    · simp only [mapDelete, if_pos hu]
      exact (List.Sublist.refl ts).cons u
    · simp only [mapDelete, if_neg hu]
      exact ih.cons₂ u

/-! ## Shape lemmas about the manager's operations -/

theorem hide_of_get_none {s : MState} {id : JsVal}
    (h : mapGet s.toasts id = none) : hide s id = s := by
  simp [hide, h]

theorem hide_toasts (s : MState) (id : JsVal) : (hide s id).toasts = s.toasts := by
  unfold hide
  cases h : mapGet s.toasts id with
  | none => rfl
  | some t => cases htm : t.timer <;> simp [htm, setTimeout, clearTimeout]

theorem hide_now (s : MState) (id : JsVal) : (hide s id).now = s.now := by
  unfold hide
  cases h : mapGet s.toasts id with
  | none => rfl
  | some t => cases htm : t.timer <;> simp [htm, setTimeout, clearTimeout]

theorem hide_opts (s : MState) (id : JsVal) : (hide s id).opts = s.opts := by
  unfold hide
  cases h : mapGet s.toasts id with
  | none => rfl
  | some t => cases htm : t.timer <;> simp [htm, setTimeout, clearTimeout]

theorem hide_events (s : MState) (id : JsVal) : (hide s id).events = s.events := by
  unfold hide
  cases h : mapGet s.toasts id with
  | none => rfl
  | some t => cases htm : t.timer <;> simp [htm, setTimeout, clearTimeout]

theorem hide_timers_of_get {s : MState} {id : JsVal} {t : Toast}
    (h : mapGet s.toasts id = some t) :
    (hide s id).timers =
      (match t.timer with
        | some tm => s.timers.filter (fun x => x.tid != tm)
        | none => s.timers)
      ++ [⟨s.nextTid, s.now + s.opts.animationDuration, .removeToast id⟩] := by
  unfold hide
  rw [h]
  cases htm : t.timer <;> simp [htm, setTimeout, clearTimeout]

theorem hide_nextTid_of_get {s : MState} {id : JsVal} {t : Toast}
    (h : mapGet s.toasts id = some t) :
    (hide s id).nextTid = s.nextTid + 1 := by
  unfold hide
  rw [h]
  cases htm : t.timer <;> simp [htm, setTimeout, clearTimeout]

theorem evict_toasts (s : MState) : (evict s).toasts = s.toasts := by
  unfold evict
  split
  · cases h : s.toasts.head? with
    | none => rfl
    | some t0 => exact hide_toasts s t0.id
  · rfl

theorem evict_now (s : MState) : (evict s).now = s.now := by
  unfold evict
  split
  · cases h : s.toasts.head? with
    | none => rfl
    | some t0 => exact hide_now s t0.id
  · rfl

theorem evict_opts (s : MState) : (evict s).opts = s.opts := by
  unfold evict
  split
  · cases h : s.toasts.head? with
    | none => rfl
    | some t0 => exact hide_opts s t0.id
  · rfl

theorem evict_eq_of_atcap {s : MState} {t0 : Toast}
    (hlen : s.opts.maxToasts ≤ s.toasts.length) (hhead : s.toasts.head? = some t0) :
    evict s = hide s t0.id := by
  simp [evict, hlen, hhead]

theorem evict_eq_of_under {s : MState}
    (hlen : s.toasts.length < s.opts.maxToasts) : evict s = s := by
  have : ¬ s.opts.maxToasts ≤ s.toasts.length := by omega
  simp [evict, this]

theorem evict_eq_of_nil {s : MState} (h : s.toasts = []) : evict s = s := by
  unfold evict
  split
  · rw [h]; rfl
  · rfl

theorem scheduleAuto_eq_of_nonpos {s : MState} {t : Toast}
    (h : t.duration ≤ 0) : scheduleAuto s t = s := by
  have : ¬ 0 < t.duration := by omega
  simp [scheduleAuto, this]

theorem scheduleAuto_toasts_of_pos {s : MState} {t : Toast}
    (h : 0 < t.duration) :
    (scheduleAuto s t).toasts = mapSet s.toasts { t with timer := some s.nextTid } := by
  simp [scheduleAuto, h, setTimeout]

theorem scheduleAuto_timers_of_pos {s : MState} {t : Toast}
    (h : 0 < t.duration) :
    (scheduleAuto s t).timers =
      s.timers ++ [⟨s.nextTid, s.now + t.duration.toNat, .autoDismiss t.id⟩] := by
  simp [scheduleAuto, h, setTimeout]

theorem show_fst (s : MState) (o : ShowSpec) (rand : String) :
    («show» s o rand).1 =
      dispatchEvent
        (scheduleAuto { evict s with toasts := mapSet (evict s).toasts (buildToast s o rand) }
          (buildToast s o rand))
        "toastShow" (buildToast s o rand).id := rfl

theorem show_ret (s : MState) (o : ShowSpec) (rand : String) :
    («show» s o rand).2 = (buildToast s o rand).id := rfl

/-- The entry `show` leaves in the map under the returned id: the toast
literal it built, with the auto-dismiss handle filled in exactly when
the duration is positive. -/
theorem show_get_spec (s : MState) (o : ShowSpec) (rand : String) :
    ∃ t : Toast,
      mapGet («show» s o rand).1.toasts ((«show» s o rand).2) = some t ∧
      t.id = («show» s o rand).2 ∧
      t.message = o.message ∧
      t.duration = (buildToast s o rand).duration ∧
      t.startTime = s.now ∧
      t.paused = false ∧
      t.timer.isSome = decide (0 < t.duration) := by
  rw [show_fst, show_ret]
  by_cases hd : 0 < (buildToast s o rand).duration
  · refine ⟨{ buildToast s o rand with
        timer := some ({ evict s with
          toasts := mapSet (evict s).toasts (buildToast s o rand) }).nextTid }, ?_, ?_, ?_, ?_, ?_, ?_, ?_⟩
    · simp only [dispatchEvent]
      rw [scheduleAuto_toasts_of_pos hd]
      exact mapGet_mapSet_self _ _
    · rfl
    · rfl
    · rfl
    · simp [buildToast, evict_now]
    · rfl
    · simp [hd]
  · refine ⟨buildToast s o rand, ?_, rfl, rfl, rfl, ?_, rfl, ?_⟩
    · simp only [dispatchEvent]
      rw [scheduleAuto_eq_of_nonpos (not_lt.mp hd)]
      exact mapGet_mapSet_self _ _
    · simp [buildToast]
    · rw [decide_eq_false hd]
      rfl

/-! ## Claim C10 -/

/-- C10: when `show` is called with a falsy caller-supplied id, the
toast is assigned the generated id `'toast-' ++ base-36 timestamp ++
random suffix`, and `isActive` holds for the returned id immediately
after `show` returns. -/
theorem toast_C10 (s : MState) (o : ShowSpec) (rand : String)
    (h : o.id.truthy = false) :
    («show» s o rand).2 = .str ("toast-" ++ natToBase36 s.now ++ rand) ∧
    isActive («show» s o rand).1 ((«show» s o rand).2) = true := by
  constructor
  · rw [show_ret]
    simp [buildToast, h, generateId]
  · obtain ⟨t, hget, -⟩ := show_get_spec s o rand
    simp [isActive, hget]

/-- Witness for C10 at a concrete input: fresh manager, spec with no
id, random suffix `"xy"`, time 0 (`natToBase36 0 = "0"`). -/
theorem toast_C10_w :
    specNoId.id.truthy = false ∧
    («show» initState specNoId "xy").2 = .str "toast-0xy" ∧
    isActive («show» initState specNoId "xy").1
      ((«show» initState specNoId "xy").2) = true := by
  refine ⟨by decide, ?_⟩
  have h := toast_C10 initState specNoId "xy" (by decide)
  exact ⟨by rw [h.1]; decide, h.2⟩

/-! ## Claim C8 -/

/-- C8 counterexample: `show` with `duration = -5` stores the duration
unchanged as `-5` — it is not clamped to `0` as the claim states — and
schedules no auto-dismiss timer. -/
theorem toast_C8_cex :
    ((mapGet («show» initState (specDur "a" (-5)) "r").1.toasts (.str "a")).map
      Toast.duration = some (-5)) ∧
    ((-5 : Int) ≠ 0) ∧
    («show» initState (specDur "a" (-5)) "r").1.timers = [] := by
  refine ⟨by decide, by decide, by decide⟩

/-- C8 (amended): `show` stores the duration exactly as given (an
unset duration defaults to the configured default of 4000 ms; a
negative duration is kept negative, not clamped and not rejected), and
an auto-dismiss timer is scheduled iff the stored duration is strictly
positive; a toast whose duration is not positive, enqueued on an idle
fresh manager, stays tracked under every passage of time. -/
theorem toast_C8 (s : MState) (o : ShowSpec) (rand : String) :
    (∃ t : Toast,
      mapGet («show» s o rand).1.toasts ((«show» s o rand).2) = some t ∧
      t.duration = (match o.duration with
        | some d => d
        | none => s.opts.defaultDuration) ∧
      t.timer.isSome = decide (0 < t.duration)) ∧
    (s.toasts = [] → s.timers = [] →
      (buildToast s o rand).duration ≤ 0 →
      ∀ s2 : MState, TimeReach («show» s o rand).1 s2 →
        isActive s2 ((«show» s o rand).2) = true) := by
  constructor
  · obtain ⟨t, hget, -, -, hdur, -, -, htm⟩ := show_get_spec s o rand
    exact ⟨t, hget, by rw [hdur]; rfl, htm⟩
  · intro hnil htnil hd s2 hreach
    have hfst : («show» s o rand).1 =
        dispatchEvent { evict s with
          toasts := mapSet (evict s).toasts (buildToast s o rand) }
          "toastShow" (buildToast s o rand).id := by
      rw [show_fst, scheduleAuto_eq_of_nonpos hd]
    have hToasts : («show» s o rand).1.toasts = [buildToast s o rand] := by
      rw [hfst]
      simp only [dispatchEvent]
      rw [evict_eq_of_nil hnil, hnil]
      rfl
    have hTimers : («show» s o rand).1.timers = [] := by
      rw [hfst]
      simp only [dispatchEvent]
      rw [evict_eq_of_nil hnil]
      exact htnil
    have key : ∀ {a b : MState}, TimeReach a b →
        a.toasts = [buildToast s o rand] → a.timers = [] →
        b.toasts = [buildToast s o rand] ∧ b.timers = [] := by
      intro a b hr
      induction hr with
      | refl => exact fun h1 h2 => ⟨h1, h2⟩
      | step hr hstep ih =>
        intro h1 h2
        obtain ⟨g1, g2⟩ := ih h1 h2
        cases hstep with
        | advance t hnow hdl => exact ⟨g1, g2⟩
        | fire tm hmem hmin =>
          rw [g2] at hmem
          exact absurd hmem (List.not_mem_nil tm)
    obtain ⟨g1, -⟩ := key hreach hToasts hTimers
    rw [show_ret]
    simp [isActive, g1, mapGet]

/-- Witness for C8 at a concrete input: fresh manager, caller-supplied
duration `0`, letting one second pass — the toast is still tracked,
and its map entry records duration `0` with no timer handle. -/
theorem toast_C8_w :
    (initState.toasts = []) ∧ (initState.timers = []) ∧
    ((buildToast initState (specDur "a" 0) "r").duration ≤ 0) ∧
    isActive (passTime («show» initState (specDur "a" 0) "r").1 1000000)
      ((«show» initState (specDur "a" 0) "r").2) = true := by
  refine ⟨rfl, rfl, by decide, ?_⟩
  refine (toast_C8 initState (specDur "a" 0) "r").2 rfl rfl (by decide) _ ?_
  refine TimeReach.step (TimeReach.refl _) ?_
  exact TimeStep.advance _ 1000000 (by decide) (by decide)

/-! ## Claim C6 -/

/-- C6 counterexample: `show` with no `message` in the spec does not
fail: it admits and tracks the toast (dispatching `toastShow`), and the
rendered body text is the string `"undefined"`.  (The source performs
no validation anywhere in `show`; there is no error path to take.) -/
theorem toast_C6_cex :
    isActive («show» initState (specNoMsg "a" 0) "r").1 (.str "a") = true ∧
    («show» initState (specNoMsg "a" 0) "r").1.events
      = [("toastShow", .str "a")] ∧
    ((mapGet («show» initState (specNoMsg "a" 0) "r").1.toasts (.str "a")).map
      renderedMessage = some "undefined") := by
  refine ⟨by decide, by decide, by decide⟩

/-- C6 (amended): `show` does not validate the spec: a spec with
`message` absent is admitted like any other — the toast is tracked
under the returned id and its message element renders the text
`"undefined"`. -/
theorem toast_C6 (s : MState) (o : ShowSpec) (rand : String)
    (hmsg : o.message = .undef) :
    isActive («show» s o rand).1 ((«show» s o rand).2) = true ∧
    ∃ t : Toast,
      mapGet («show» s o rand).1.toasts ((«show» s o rand).2) = some t ∧
      renderedMessage t = "undefined" := by
  obtain ⟨t, hget, -, hm, -⟩ := show_get_spec s o rand
  refine ⟨by simp [isActive, hget], t, hget, ?_⟩
  rw [renderedMessage, hm, hmsg]
  decide

/-- Witness for C6 at a concrete input. -/
theorem toast_C6_w :
    ((specNoMsg "b" 7).message = .undef) ∧
    (isActive («show» initState (specNoMsg "b" 7) "r").1
      ((«show» initState (specNoMsg "b" 7) "r").2) = true ∧
    ∃ t : Toast,
      mapGet («show» initState (specNoMsg "b" 7) "r").1.toasts
        ((«show» initState (specNoMsg "b" 7) "r").2) = some t ∧
      renderedMessage t = "undefined") :=
  ⟨rfl, toast_C6 initState (specNoMsg "b" 7) "r" rfl⟩

/-! ## Further shape lemmas for `show` -/

theorem mapGet_head {l : List Toast} {t0 : Toast} (h : l.head? = some t0) :
    mapGet l t0.id = some t0 := by
  cases l with
  | nil => simp at h
  | cons u ts =>
    simp at h
    subst h
    simp [mapGet]

/-- When the id `show` is about to use is not yet tracked, the new
toast is appended at the end of the map. -/
theorem show_toasts_of_fresh (s : MState) (o : ShowSpec) (rand : String)
    (hfresh : mapGet s.toasts (buildToast s o rand).id = none) :
    ∃ tl : Toast, («show» s o rand).1.toasts = s.toasts ++ [tl] ∧
      tl.id = (buildToast s o rand).id := by
  rw [show_fst]
  by_cases hd : 0 < (buildToast s o rand).duration
  · refine ⟨{ buildToast s o rand with
        timer := some (evict s).nextTid }, ?_, rfl⟩
    simp only [dispatchEvent]
    rw [scheduleAuto_toasts_of_pos hd]
    show mapSet (mapSet (evict s).toasts (buildToast s o rand)) _ = _
    rw [evict_toasts, mapSet_of_get_none _ _ hfresh]
    exact mapSet_append_last _ _ _ hfresh rfl
  · refine ⟨buildToast s o rand, ?_, rfl⟩
    simp only [dispatchEvent]
    rw [scheduleAuto_eq_of_nonpos (not_lt.mp hd)]
    show mapSet (evict s).toasts (buildToast s o rand) = _
    rw [evict_toasts]
    exact mapSet_of_get_none _ _ hfresh

/-- Every pending timeout surviving the eviction step survives the rest
of `show` (the remainder only appends timeouts). -/
theorem show_timers_sub (s : MState) (o : ShowSpec) (rand : String) :
    ∀ x ∈ (evict s).timers, x ∈ («show» s o rand).1.timers := by
  intro x hx
  rw [show_fst]
  by_cases hd : 0 < (buildToast s o rand).duration
  · simp only [dispatchEvent]
    rw [scheduleAuto_timers_of_pos hd]
    exact List.mem_append.mpr (Or.inl hx)
  · simp only [dispatchEvent]
    rw [scheduleAuto_eq_of_nonpos (not_lt.mp hd)]
    exact hx

/-- Exact pending-timeout list after a `show` that evicted the head
toast `t0`: the old timeouts (minus `t0`'s cleared one), then the
removal callback for `t0`, then the new toast's auto-dismiss timeout
when its duration is positive. -/
theorem show_timers_atcap (s : MState) (o : ShowSpec) (rand : String) (t0 : Toast)
    (hlen : s.opts.maxToasts ≤ s.toasts.length)
    (hhead : s.toasts.head? = some t0) :
    («show» s o rand).1.timers =
      ((match t0.timer with
          | some tm => s.timers.filter (fun x => x.tid != tm)
          | none => s.timers)
        ++ [⟨s.nextTid, s.now + s.opts.animationDuration, .removeToast t0.id⟩])
      ++ (if 0 < (buildToast s o rand).duration then
            [⟨s.nextTid + 1, s.now + (buildToast s o rand).duration.toNat,
              .autoDismiss (buildToast s o rand).id⟩]
          else []) := by
  have hget0 := mapGet_head hhead
  rw [show_fst, evict_eq_of_atcap hlen hhead]
  by_cases hd : 0 < (buildToast s o rand).duration
  · rw [if_pos hd]
    simp only [dispatchEvent]
    rw [scheduleAuto_timers_of_pos hd]
    show (hide s t0.id).timers ++ [⟨(hide s t0.id).nextTid,
        (hide s t0.id).now + (buildToast s o rand).duration.toNat,
        .autoDismiss (buildToast s o rand).id⟩] = _
    rw [hide_timers_of_get hget0, hide_nextTid_of_get hget0, hide_now]
  · rw [if_neg hd]
    simp only [dispatchEvent]
    rw [scheduleAuto_eq_of_nonpos (not_lt.mp hd)]
    show (hide s t0.id).timers = _
    rw [hide_timers_of_get hget0]
    simp

/-! ## Claim C1 -/

/-- C1 counterexample: six `show` calls in one tick leave six tracked
toasts while `maxToasts` is 5 — the eviction performed by the sixth
call only *hides* the oldest toast; its map entry survives until the
removal callback fires 300 ms later, so the tracked-set size exceeds
`maxConcurrent`. -/
theorem toast_C1_cex :
    sB6.opts.maxToasts = 5 ∧ (getToasts sB6).length = 6 := by
  refine ⟨by decide, by decide⟩

/-- C1 (amended): a `show` arriving with the tracked set at (or above)
capacity force-dismisses the oldest tracked entry — its stored timeout
is superseded and a removal callback for it is scheduled
`animationDuration` later — and then admits the new toast; but because
the evicted entry stays tracked until that callback runs, the tracked
count right after such a `show` is the old count plus one, temporarily
exceeding `maxConcurrent`. -/
theorem toast_C1 (s : MState) (o : ShowSpec) (rand : String) (t0 : Toast)
    (hlen : s.opts.maxToasts ≤ s.toasts.length)
    (hhead : s.toasts.head? = some t0)
    (hfresh : mapGet s.toasts (buildToast s o rand).id = none) :
    («show» s o rand).1.toasts.length = s.toasts.length + 1 ∧
    (⟨s.nextTid, s.now + s.opts.animationDuration,
      .removeToast t0.id⟩ : Timer) ∈ («show» s o rand).1.timers ∧
    isActive («show» s o rand).1 t0.id = true := by
  have hget0 := mapGet_head hhead
  obtain ⟨tl, htl, hid⟩ := show_toasts_of_fresh s o rand hfresh
  refine ⟨?_, ?_, ?_⟩
  · rw [htl]
    simp
  · refine show_timers_sub s o rand _ ?_
    rw [evict_eq_of_atcap hlen hhead, hide_timers_of_get hget0]
    cases t0.timer <;> simp
  · rw [isActive, htl, mapGet_append_left _ _ _ _ hget0]
    rfl

/-- Witness for C1 at a concrete input: a sixth `show` on a full
manager. -/
theorem toast_C1_w :
    (sB5.opts.maxToasts ≤ sB5.toasts.length) ∧
    (sB5.toasts.head? = some tHead) ∧
    (mapGet sB5.toasts (buildToast sB5 (mkSpec "f") "r").id = none) ∧
    ((«show» sB5 (mkSpec "f") "r").1.toasts.length = sB5.toasts.length + 1 ∧
     (⟨sB5.nextTid, sB5.now + sB5.opts.animationDuration,
       .removeToast tHead.id⟩ : Timer) ∈ («show» sB5 (mkSpec "f") "r").1.timers ∧
     isActive («show» sB5 (mkSpec "f") "r").1 tHead.id = true) := by
  exact ⟨by decide, by decide, by decide,
    toast_C1 sB5 (mkSpec "f") "r" tHead (by decide) (by decide) (by decide)⟩

/-! ## Claim C4 -/

/-- C4 counterexample: on the seventh of seven same-tick `show` calls,
eviction targets toast "a" *again* — the entry whose dismissal is
already in progress (two removal callbacks pending for "a") — instead
of the oldest *surviving* entry "b" (no removal callback pending). -/
theorem toast_C4_cex :
    ((sB7.timers.filter (fun tm => decide (tm.act = .removeToast (.str "a")))).length = 2) ∧
    ((sB7.timers.filter (fun tm => decide (tm.act = .removeToast (.str "b")))).length = 0) ∧
    (getToasts sB7).length = 7 := by
  refine ⟨by decide, by decide, by decide⟩

/-- C4 (amended): when `show` evicts, the single removal callback it
creates targets exactly the first entry of the map — the
earliest-inserted entry still tracked, which may be one whose
dismissal is already in progress — never an entry chosen by nearness
to expiry. -/
theorem old_timers_filter_nil (s : MState) (l : List Timer)
    (hsub : ∀ x ∈ l, x ∈ s.timers)
    (hwf : ∀ x ∈ s.timers, x.tid < s.nextTid) :
    l.filter (fun tm => decide (s.nextTid ≤ tm.tid) && isRemoveAct tm.act) = [] := by
  refine List.filter_eq_nil_iff.mpr (fun x hx => ?_)
  have hlt := hwf x (hsub x hx)
  simp only [Bool.and_eq_true, decide_eq_true_eq]
  rintro ⟨h, -⟩
  omega

theorem toast_C4 (s : MState) (o : ShowSpec) (rand : String) (t0 : Toast)
    (hlen : s.opts.maxToasts ≤ s.toasts.length)
    (hhead : s.toasts.head? = some t0)
    (hwf : ∀ x ∈ s.timers, x.tid < s.nextTid) :
    («show» s o rand).1.timers.filter
        (fun tm => decide (s.nextTid ≤ tm.tid) && isRemoveAct tm.act)
      = [⟨s.nextTid, s.now + s.opts.animationDuration, .removeToast t0.id⟩] := by
  have hat := show_timers_atcap s o rand t0 hlen hhead
  have h3 : (if 0 < (buildToast s o rand).duration then
      [(⟨s.nextTid + 1, s.now + (buildToast s o rand).duration.toNat,
        .autoDismiss (buildToast s o rand).id⟩ : Timer)]
      else []).filter
        (fun tm => decide (s.nextTid ≤ tm.tid) && isRemoveAct tm.act) = [] := by
    split <;> simp [isRemoveAct]
  cases htm : t0.timer with
  | none =>
    simp only [htm] at hat
    rw [hat, List.filter_append, List.filter_append,
      old_timers_filter_nil s s.timers (fun x hx => hx) hwf, h3]
    simp [isRemoveAct]
  | some tm =>
    simp only [htm] at hat
    rw [hat, List.filter_append, List.filter_append,
      old_timers_filter_nil s (s.timers.filter (fun y => y.tid != tm))
        (fun x hx => (List.mem_filter.mp hx).1) hwf, h3]
    simp [isRemoveAct]

/-- Witness for C4 at a concrete input: the sixth `show` on a full
manager schedules exactly one removal callback, for the head toast. -/
theorem toast_C4_w :
    (sB5.opts.maxToasts ≤ sB5.toasts.length) ∧
    (sB5.toasts.head? = some tHead) ∧
    (∀ x ∈ sB5.timers, x.tid < sB5.nextTid) ∧
    («show» sB5 (mkSpec "f") "r").1.timers.filter
        (fun tm => decide (sB5.nextTid ≤ tm.tid) && isRemoveAct tm.act)
      = [⟨sB5.nextTid, sB5.now + sB5.opts.animationDuration,
          .removeToast tHead.id⟩] := by
  exact ⟨by decide, by decide, by decide,
    toast_C4 sB5 (mkSpec "f") "r" tHead (by decide) (by decide) (by decide)⟩

/-! ## Claim C9 -/

/-- C9 counterexample: enqueue order is `a`, `b`, `a` (see the event
log), but `list()` returns the toast of the *third* enqueue (duration
3, stored under the reused key `a`) *before* the toast of the second
enqueue — `Map.set` keeps the first-insertion position of a reused key,
so `list()` is not in enqueue order for every sequence. -/
theorem toast_C9_cex :
    ((getToasts c9s).map (fun t => (t.id, t.duration))
      = [(.str "a", 3), (.str "b", 2)]) ∧
    c9s.events = [("toastShow", .str "a"), ("toastShow", .str "b"),
      ("toastShow", .str "a")] := by
  refine ⟨by decide, by decide⟩

/-- C9 (amended): `list()` returns the tracked toasts in `Map`
insertion order — the order in which their ids were *first* inserted:
a `show` whose id is not currently tracked appends its toast at the
end, and a removal callback deletes one entry leaving the relative
order of the rest unchanged; hence for sequences in which every
`show` uses a fresh id (e.g. generated ids), `list()` is exactly
enqueue order.  A re-`show` under an already-tracked id, however,
keeps the original position. -/
theorem toast_C9 (s : MState) (o : ShowSpec) (rand : String)
    (hfresh : mapGet s.toasts (buildToast s o rand).id = none) :
    ((getToasts («show» s o rand).1).map Toast.id
      = (getToasts s).map Toast.id ++ [(«show» s o rand).2]) ∧
    (∀ k : JsVal, (getToasts (runAct s (.removeToast k))).Sublist (getToasts s)) := by
  constructor
  · obtain ⟨tl, htl, hid⟩ := show_toasts_of_fresh s o rand hfresh
    rw [show_ret, getToasts, getToasts, htl]
    simp [hid]
  · intro k
    show (mapDelete s.toasts k).Sublist s.toasts
    exact mapDelete_sublist _ _

/-- Witness for C9 at a concrete input: a fresh-id `show` appends, and
the removal callback for `b` preserves the order of the rest. -/
theorem toast_C9_w :
    (mapGet sB5.toasts (buildToast sB5 (mkSpec "f") "r").id = none) ∧
    ((getToasts («show» sB5 (mkSpec "f") "r").1).map Toast.id
      = (getToasts sB5).map Toast.id ++ [(«show» sB5 (mkSpec "f") "r").2]) ∧
    (getToasts (runAct sB5 (.removeToast (.str "b")))).Sublist (getToasts sB5) := by
  exact ⟨by decide, (toast_C9 sB5 (mkSpec "f") "r" (by decide)).1,
    (toast_C9 sB5 (mkSpec "f") "r" (by decide)).2 (.str "b")⟩

/-- Helper: `hide` on a tracked toast leaves no pending timeout with
the toast's stored handle — the stored one is cleared and the freshly
scheduled removal callback uses a strictly newer handle. -/
theorem hide_clears_timer (s : MState) (id : JsVal) (t : Toast) (tm : Nat)
    (hget : mapGet s.toasts id = some t) (htm : t.timer = some tm)
    (hlt : tm < s.nextTid) :
    (hide s id).timers.all (fun x => x.tid != tm) = true := by
  rw [hide_timers_of_get hget]
  simp only [htm]
  rw [List.all_eq_true]
  intro x hx
  rcases List.mem_append.mp hx with hx1 | hx2
  · exact (List.mem_filter.mp hx1).2
  · simp only [List.mem_singleton] at hx2
    subst hx2
    simp only [bne_iff_ne, ne_eq]
    omega

/-! ## Claim C2 -/

/-- C2 counterexample: calling `hide` twice in succession on the same
tracked toast schedules two removal callbacks, and once both fire the
event log holds *two* `toastHide` events for the toast — not exactly
one as the claim states. -/
theorem toast_C2_cex :
    ((c2final.events.filter
      (fun e => decide (e = ("toastHide", JsVal.str "a")))).length = 2) ∧
    c2final.events = [("toastShow", .str "a"), ("toastHide", .str "a"),
      ("toastHide", .str "a")] := by
  refine ⟨by decide, by decide⟩

/-- C2 (amended): `hide` with an unknown id is a no-op, and `hide` on a
tracked toast removes the toast's stored pending timeout from the
pending set — so a dismiss racing the in-flight auto-dismiss timeout
cancels it and that timeout can no longer fire.  (But a second `hide`
while the toast is still awaiting removal is *not* a no-op: it
schedules a second removal callback, so two `hide` calls in succession
produce two `toastHide` events, as the counterexample shows.) -/
theorem toast_C2 (s : MState) (id : JsVal) :
    (mapGet s.toasts id = none → hide s id = s) ∧
    (∀ t : Toast, ∀ tm : Nat, mapGet s.toasts id = some t →
      t.timer = some tm → tm < s.nextTid →
      (hide s id).timers.all (fun x => x.tid != tm) = true) := by
  constructor
  · exact fun h => hide_of_get_none h
  · exact fun t tm hget htm hlt => hide_clears_timer s id t tm hget htm hlt

/-- Witness for C2 at concrete inputs: on `oneShown`, `hide` of the
untracked id `b` is the identity, and `hide` of `a` leaves no pending
timeout with the stored handle 1. -/
theorem toast_C2_w :
    (mapGet oneShown.toasts (.str "b") = none) ∧
    (hide oneShown (.str "b") = oneShown) ∧
    (mapGet oneShown.toasts (.str "a") = some tA) ∧
    (tA.timer = some 1) ∧ (1 < oneShown.nextTid) ∧
    ((hide oneShown (.str "a")).timers.all (fun x => x.tid != 1) = true) := by
  refine ⟨by decide, (toast_C2 oneShown (.str "b")).1 (by decide),
    by decide, by decide, by decide,
    (toast_C2 oneShown (.str "a")).2 tA 1 (by decide) (by decide) (by decide)⟩

/-! ## Claim C3 -/

/-- C3 counterexample: in the claim's own scenario (duration 1000,
pause at t=400, resume at t=900) the resume handler reschedules the
auto-dismiss for t=1000, not t=1500 — the 500 ms spent paused *is*
counted against the timer, because `remainingTime` is computed from
`startTime` (creation time), which `pauseAll` never adjusts. -/
theorem toast_C3_cex :
    (c3resumed.timers.map Timer.fireAt = [1000]) ∧
    ¬(1500 ∈ c3resumed.timers.map Timer.fireAt) := by
  refine ⟨by decide, by decide⟩

/-- C3 (amended): in the scenario, resume at t=900 reschedules the
auto-dismiss timeout (handle 2) for t=1000 and unsets `paused`; firing
it runs `hide`, and the subsequent removal callback completes at
t=1300 with exactly one `toastHide` event — the notification is gone
well before the claimed t=1500. -/
theorem toast_C3 :
    c3resumed.timers = [⟨2, 1000, .autoDismiss (.str "a")⟩] ∧
    ((mapGet c3resumed.toasts (.str "a")).map Toast.paused = some false) ∧
    (fireNext (fireNext c3resumed)).events
      = [("toastShow", .str "a"), ("toastHide", .str "a")] ∧
    (fireNext (fireNext c3resumed)).now = 1300 ∧
    (fireNext (fireNext c3resumed)).toasts = [] := by
  refine ⟨by decide, by decide, by decide, by decide, by decide⟩

/-! ## Claim C5 -/

/-- C5 counterexample: `show` with the already-tracked id `a` replaces
the map entry (new duration 2000) but leaves the old toast's
auto-dismiss timeout (handle 1, due t=1000) pending; when it fires, it
hides the *new* toast, whose removal completes at t=1300 — a stale
timer fired against a since-repurposed id. -/
theorem toast_C5_cex :
    ((⟨1, 1000, .autoDismiss (.str "a")⟩ : Timer) ∈ c5reused.timers) ∧
    ((mapGet c5reused.toasts (.str "a")).map Toast.duration = some 2000) ∧
    (fireNext (fireNext c5reused)).toasts = [] ∧
    (fireNext (fireNext c5reused)).now = 1300 := by
  refine ⟨by decide, by decide, by decide, by decide⟩

/-- C5 (amended): `hide` does cancel the hidden toast's stored pending
timeout (and leaves the entry tracked until the removal callback
runs); but `show` cancels nothing: when no eviction occurs, every
pending timeout survives the call — in particular, a `show` that
replaces an already-tracked id leaves the replaced toast's
auto-dismiss timeout pending, so a stale timer can fire against the
reused id. -/
theorem toast_C5 (s : MState) (o : ShowSpec) (rand : String) (id2 : JsVal)
    (t : Toast) (tm : Nat) :
    (mapGet s.toasts id2 = some t → t.timer = some tm → tm < s.nextTid →
      ((hide s id2).timers.all (fun x => x.tid != tm) = true ∧
       mapGet (hide s id2).toasts id2 = some t)) ∧
    (s.toasts.length < s.opts.maxToasts →
      ∃ l2 : List Timer, («show» s o rand).1.timers = s.timers ++ l2) := by
  constructor
  · intro hget htm hlt
    refine ⟨hide_clears_timer s id2 t tm hget htm hlt, ?_⟩
    rw [hide_toasts]
    exact hget
  · intro hlen
    rw [show_fst, evict_eq_of_under hlen]
    by_cases hd : 0 < (buildToast s o rand).duration
    · refine ⟨[⟨s.nextTid, s.now + (buildToast s o rand).duration.toNat,
        .autoDismiss (buildToast s o rand).id⟩], ?_⟩
      simp only [dispatchEvent]
      rw [scheduleAuto_timers_of_pos hd]
    · refine ⟨[], ?_⟩
      simp only [dispatchEvent]
      rw [scheduleAuto_eq_of_nonpos (not_lt.mp hd)]
      simp

/-- Witness for C5 at concrete inputs: `hide` of `a` on `oneShown`
cancels handle 1 while keeping the entry; and the duplicate-id `show`
building `c5reused` (no eviction: 1 < 5) only appends timeouts, so
handle 1 survives it. -/
theorem toast_C5_w :
    (mapGet oneShown.toasts (.str "a") = some tA) ∧
    (tA.timer = some 1) ∧ (1 < oneShown.nextTid) ∧
    ((hide oneShown (.str "a")).timers.all (fun x => x.tid != 1) = true ∧
     mapGet (hide oneShown (.str "a")).toasts (.str "a") = some tA) ∧
    (oneShown.toasts.length < oneShown.opts.maxToasts) ∧
    (∃ l2 : List Timer,
      («show» oneShown (specDur "a" 2000) "r").1.timers = oneShown.timers ++ l2) := by
  refine ⟨by decide, by decide, by decide,
    (toast_C5 oneShown (specDur "a" 2000) "r" (.str "a") tA 1).1
      (by decide) (by decide) (by decide),
    by decide,
    (toast_C5 oneShown (specDur "a" 2000) "r" (.str "a") tA 1).2 (by decide)⟩

/-! ## Lemmas about the resume-all (`mouseleave`) fold -/

theorem mapGet_mapSet_ne (l : List Toast) (t : Toast) (k : JsVal)
    (h : k ≠ t.id) : mapGet (mapSet l t) k = mapGet l k := by
  induction l with
  | nil =>
    have htk : ¬ t.id = k := fun hh => h hh.symm
    simp [mapSet, mapGet, htk]
  | cons u ts ih =>
    by_cases hu : u.id = t.id
    · have huk : ¬ u.id = k := by
        rw [hu]
        exact fun hh => h hh.symm
      have htk : ¬ t.id = k := fun hh => h hh.symm
      simp [mapSet, mapGet, hu, huk, htk]
    · by_cases huk : u.id = k
      · simp [mapSet, mapGet, hu, huk, h]
      · simp [mapSet, mapGet, hu, huk, ih]

theorem leaveOne_now (t : Toast) (s : MState) : (leaveOne t s).now = s.now := by
  simp only [leaveOne, setTimeout]
  split
  · split <;> rfl
  · rfl

theorem leaveOne_timers_mono (t : Toast) (s : MState) (x : Timer)
    (hx : x ∈ s.timers) : x ∈ (leaveOne t s).timers := by
  simp only [leaveOne, setTimeout]
  split
  · split
    · exact List.mem_append.mpr (Or.inl hx)
    · exact hx
  · exact hx

theorem leaveOne_get_ne (t : Toast) (s : MState) (k : JsVal)
    (hne : k ≠ t.id) : mapGet (leaveOne t s).toasts k = mapGet s.toasts k := by
  simp only [leaveOne, setTimeout]
  split
  · split
    · exact mapGet_mapSet_ne _ _ _ hne
    · rfl
  · rfl

theorem foldLeave_now (l : List Toast) (st : MState) :
    (l.foldl (fun acc u => leaveOne u acc) st).now = st.now := by
  induction l generalizing st with
  | nil => rfl
  | cons u us ih => rw [List.foldl_cons, ih, leaveOne_now]

theorem foldLeave_timers_mono (l : List Toast) (st : MState) (x : Timer)
    (hx : x ∈ st.timers) :
    x ∈ (l.foldl (fun acc u => leaveOne u acc) st).timers := by
  induction l generalizing st with
  | nil => exact hx
  | cons u us ih => exact ih _ (leaveOne_timers_mono u st x hx)

theorem foldLeave_get_ne (l : List Toast) (st : MState) (k : JsVal)
    (h : ∀ u ∈ l, u.id ≠ k) :
    mapGet (l.foldl (fun acc u => leaveOne u acc) st).toasts k
      = mapGet st.toasts k := by
  induction l generalizing st with
  | nil => rfl
  | cons u us ih =>
    rw [List.foldl_cons, ih _ (fun v hv => h v (List.mem_cons_of_mem u hv)),
      leaveOne_get_ne u st k (fun hh => h u (List.mem_cons_self u us) hh.symm)]

/-- What the resume-all fold does to one paused toast with positive
duration: when its remaining time is positive it is rescheduled
(fresh timeout for exactly the remaining time, `paused` unset);
otherwise its entry is left completely unchanged. -/
theorem resume_fold : ∀ (l : List Toast) (st : MState) (t : Toast),
    t ∈ l → (l.map Toast.id).Nodup →
    mapGet st.toasts t.id = some t →
    t.paused = true → 0 < t.duration →
    (0 < t.duration - ((st.now : Int) - (t.startTime : Int)) →
      ∃ n : Nat,
        mapGet (l.foldl (fun acc u => leaveOne u acc) st).toasts t.id
          = some { t with timer := some n, paused := false } ∧
        (⟨n, st.now + (t.duration - ((st.now : Int) - (t.startTime : Int))).toNat,
          .autoDismiss t.id⟩ : Timer)
          ∈ (l.foldl (fun acc u => leaveOne u acc) st).timers) ∧
    (t.duration - ((st.now : Int) - (t.startTime : Int)) ≤ 0 →
      mapGet (l.foldl (fun acc u => leaveOne u acc) st).toasts t.id = some t) := by
  intro l
  induction l with
  | nil =>
    intro st t ht
    exact absurd ht (List.not_mem_nil t)
  | cons u us ih =>
    intro st t ht hnd hget hp hd
    rw [List.map_cons, List.nodup_cons] at hnd
    obtain ⟨hu_notin, hnd_us⟩ := hnd
    rcases List.mem_cons.mp ht with rfl | hts
    · have husne : ∀ v ∈ us, v.id ≠ t.id := by
        intro v hv heq
        exact hu_notin (heq ▸ List.mem_map_of_mem Toast.id hv)
      have hcond : (t.paused && decide (0 < t.duration)) = true := by
        simp [hp, hd]
      constructor
      · intro hrem
        refine ⟨st.nextTid, ?_, ?_⟩
        · rw [List.foldl_cons, foldLeave_get_ne us _ t.id husne]
          simp only [leaveOne, setTimeout, hcond, if_pos hrem, if_true]
          exact mapGet_mapSet_self _ _
        · rw [List.foldl_cons]
          refine foldLeave_timers_mono us _ _ ?_
          simp only [leaveOne, setTimeout, hcond, if_pos hrem, if_true]
          exact List.mem_append.mpr (Or.inr (List.mem_singleton.mpr rfl))
      · intro hrem
        have hone : leaveOne t st = st := by
          simp only [leaveOne, setTimeout, hcond, if_true]
          rw [if_neg (not_lt.mpr hrem)]
        rw [List.foldl_cons, hone, foldLeave_get_ne us st t.id husne]
        exact hget
    · have hune : u.id ≠ t.id := by
        intro heq
        exact hu_notin (heq ▸ List.mem_map_of_mem Toast.id hts)
      have hget1 : mapGet (leaveOne u st).toasts t.id = some t := by
        rw [leaveOne_get_ne u st t.id (fun hh => hune hh.symm)]
        exact hget
      have hnow1 := leaveOne_now u st
      have hmain := ih (leaveOne u st) t hts hnd_us hget1 hp hd
      rw [hnow1] at hmain
      rw [List.foldl_cons]
      exact hmain

/-! ## Claim C7 -/

/-- C7 counterexample: pause at t=400, resume at t=2000 — the
duration-1000 toast's remaining time is `-1000 ≤ 0`, yet it is *not*
dismissed: the resume handler does nothing at all, leaving the toast
tracked, still paused, with no pending timeout and no removal
scheduled (no `toastHide` event ever fires for it). -/
theorem toast_C7_cex :
    ((mapGet c7stuck.toasts (.str "a")).map Toast.paused = some true) ∧
    c7stuck.timers = [] ∧
    c7stuck.events = [("toastShow", .str "a")] ∧
    isActive c7stuck (.str "a") = true := by
  refine ⟨by decide, by decide, by decide, by decide⟩

/-- C7 (amended): for every paused notification with positive
duration, resume-all with positive remaining time reschedules a
timeout for exactly the remaining time and returns the notification
to the unpaused (Visible) state; but when the remaining time is ≤ 0
the notification is *not* dismissed — its entry is left unchanged
(still tracked, still paused, no timeout rescheduled). -/
theorem toast_C7 (s : MState) (t : Toast)
    (ht : t ∈ s.toasts) (hnd : (s.toasts.map Toast.id).Nodup)
    (hget : mapGet s.toasts t.id = some t)
    (hp : t.paused = true) (hd : 0 < t.duration) :
    (0 < t.duration - ((s.now : Int) - (t.startTime : Int)) →
      ∃ n : Nat,
        mapGet (mouseleave s).toasts t.id
          = some { t with timer := some n, paused := false } ∧
        (⟨n, s.now + (t.duration - ((s.now : Int) - (t.startTime : Int))).toNat,
          .autoDismiss t.id⟩ : Timer) ∈ (mouseleave s).timers) ∧
    (t.duration - ((s.now : Int) - (t.startTime : Int)) ≤ 0 →
      mapGet (mouseleave s).toasts t.id = some t) :=
  resume_fold s.toasts s t ht hnd hget hp hd

/-- Witness for C7 at a concrete input: `c7paused` at t=900 holds the
paused duration-1000 toast created at t=0; its remaining time is 100,
so resume-all reschedules it and unsets `paused`. -/
theorem toast_C7_w :
    (tPaused ∈ c7paused.toasts) ∧
    ((c7paused.toasts.map Toast.id).Nodup) ∧
    (mapGet c7paused.toasts tPaused.id = some tPaused) ∧
    (tPaused.paused = true) ∧ (0 < tPaused.duration) ∧
    (0 < tPaused.duration - ((c7paused.now : Int) - (tPaused.startTime : Int))) ∧
    (∃ n : Nat,
      mapGet (mouseleave c7paused).toasts tPaused.id
        = some { tPaused with timer := some n, paused := false } ∧
      (⟨n, c7paused.now + (tPaused.duration -
          ((c7paused.now : Int) - (tPaused.startTime : Int))).toNat,
        .autoDismiss tPaused.id⟩ : Timer) ∈ (mouseleave c7paused).timers) := by
  refine ⟨by decide, by decide, by decide, by decide, by decide, by decide,
    (toast_C7 c7paused tPaused (by decide) (by decide) (by decide)
      (by decide) (by decide)).1 (by decide)⟩

end ToastModel
